import Mathlib

/-!
Verification development for the netscout TCP port scanner
(github.com/JeffreyOmoakah/netscout).

The Go sources are shallowly embedded below:
- `internal/result` (the Result Aggregator / `Collector`): `Status`,
  `Result`, `Summary`, `updateSummary`, the `collect` loop, `GetResults`
  and the sorting performed by `WriteResults`;
- `internal/worker` (`Worker.scan`, the pool shutdown behaviour);
- `internal/parser` (`parseCIDR`, `incrementIP`, `ParsePorts`,
  `parsePortRange`, `validatePort`);
- `internal/scanner` (`generateTasks` with cancellation, the rate-limiter
  interval computation, the `Scan` return value) and `cmd/netscout/main.go`
  (exit-code mapping).

Machine integers are modelled as `Nat`/`Int`; IPv4 addresses as `Nat`
below `2^32` with wrap-around made explicit (`% 2^32`). Channels are
modelled as explicit lists; the shutdown interleaving of `Scanner.Scan`
is a small labelled transition system.
-/

namespace Netscout

/-! ## Data model: `internal/result` -/

/-- Embeds `result.Status`: the four status constants `StatusOpen`,
`StatusClosed`, `StatusFiltered`, `StatusError` declared in
`internal/result`.  In Go this is a string-typed enum; every `Result`
the program constructs carries one of these four values. -/
inductive Status where
  | statusOpen
  | statusClosed
  | statusFiltered
  | statusError
deriving DecidableEq

/-- Embeds `result.Result`: one scan result.  The `Timestamp`/`Duration` fields
are wall-clock data irrelevant to every claim and are omitted. -/
structure ScanResult where
  ip : String
  port : Int
  status : Status
  error : String
deriving DecidableEq

/-- Embeds `result.Summary`: the aggregated counters.  `StartTime`/`EndTime`/
`Duration` are wall-clock data and are omitted. -/
structure Summary where
  totalScanned : Nat
  openPorts : Nat
  closedPorts : Nat
  filtered : Nat
  errors : Nat
deriving DecidableEq

/-- The zero-valued `Summary` a fresh `Collector` starts from
(`NewCollector` only sets `StartTime`). -/
def initSummary : Summary := ⟨0, 0, 0, 0, 0⟩

/-- Embeds `Collector.updateSummary`: increment `TotalScanned`, then switch on
the status and increment the matching counter. -/
def Collector.updateSummary (s : Summary) (r : ScanResult) : Summary :=
  let s := { s with totalScanned := s.totalScanned + 1 }
  match r.status with
  | .statusOpen => { s with openPorts := s.openPorts + 1 }
  | .statusClosed => { s with closedPorts := s.closedPorts + 1 }
  | .statusFiltered => { s with filtered := s.filtered + 1 }
  | .statusError => { s with errors := s.errors + 1 }

/-- Embeds `Collector.collect`: the collection goroutine drains the result
channel in arrival order, appending each result to `c.results` and
folding it into the summary.  The channel funnels every interleaving of
concurrent submitters into one arrival sequence `rs`. -/
def Collector.collect (rs : List ScanResult) : List ScanResult × Summary :=
  rs.foldl (fun acc r => (acc.1 ++ [r], Collector.updateSummary acc.2 r))
    ([], initSummary)

/-- Embeds `Collector.GetResults`: copies the stored results slice and returns
the copy (no sorting, no filtering). -/
def Collector.getResults (rs : List ScanResult) : List ScanResult := rs

/-- The four-way status counters of a summary sum to `TotalScanned`. -/
def summaryConsistent (s : Summary) : Prop :=
  s.openPorts + s.closedPorts + s.filtered + s.errors = s.totalScanned

instance (s : Summary) : Decidable (summaryConsistent s) := by
  unfold summaryConsistent; infer_instance

/-! ## Probe worker: `internal/worker` -/

/-- Embeds `worker.Task`: one (host, port) probe task. -/
structure ScanTask where
  ip : String
  port : Int
deriving DecidableEq

/-- The observable outcome of `net.DialTimeout("tcp", address, timeout)`:
either the connection attempt succeeds, or it fails with an error whose
`net.Error.Timeout()` test is `isTimeout`. -/
inductive DialResult where
  | connected
  | dialFailed (isTimeout : Bool) (msg : String)
deriving DecidableEq

/-- Embeds `Worker.scan`: classify one dial outcome into a `Result`.
Success ↦ `StatusOpen`; failure with `Timeout() == true` ↦
`StatusFiltered`; every other failure ↦ `StatusClosed`, recording the
error text. -/
def Worker.scan (t : ScanTask) (d : DialResult) : ScanResult :=
  match d with
  | .connected =>
      { ip := t.ip, port := t.port, status := .statusOpen, error := "" }
  | .dialFailed isTimeout msg =>
      { ip := t.ip, port := t.port,
        status := if isTimeout then .statusFiltered else .statusClosed,
        error := msg }

/-- The sequence of results `Worker.scan` sends on the result channel
for one task: exactly the one unconditional `w.resultChan <- r`. -/
def Worker.emit (t : ScanTask) (d : DialResult) : List ScanResult :=
  [Worker.scan t d]

/-! ## Shared lemmas -/

/-- Folding any arrival sequence into the summary keeps the counters
consistent and counts one submission per result. -/
theorem summary_fold_invariant (rs : List ScanResult) (s : Summary)
    (h : summaryConsistent s) :
    summaryConsistent (rs.foldl Collector.updateSummary s) ∧
      (rs.foldl Collector.updateSummary s).totalScanned
        = s.totalScanned + rs.length := by
  induction rs generalizing s with
  | nil => simpa using h
  | cons r rs ih =>
      have hstep : summaryConsistent (Collector.updateSummary s r) ∧
          (Collector.updateSummary s r).totalScanned = s.totalScanned + 1 := by
        unfold Collector.updateSummary summaryConsistent at *
        rcases r with ⟨ip, port, st, e⟩
        cases st <;> simp <;> omega
      have := ih (Collector.updateSummary s r) hstep.1
      refine ⟨this.1, ?_⟩
      simp only [List.foldl_cons, List.length_cons]
      omega

/-- The collect loop appends results in arrival order while folding the
summary; no reordering happens during collection. -/
theorem collect_fold_spec (rs : List ScanResult) :
    ∀ (acc : List ScanResult) (t : Summary),
      rs.foldl (fun acc r => (acc.1 ++ [r], Collector.updateSummary acc.2 r))
          (acc, t)
        = (acc ++ rs, rs.foldl Collector.updateSummary t) := by
  induction rs with
  | nil => intro acc t; simp
  | cons r rs ih =>
      intro acc t
      simp only [List.foldl_cons]
      rw [ih]
      simp

/-! ## Claim theorems: aggregator accounting (C1) and worker classification (C2, C8) -/

/-- C1: for every number N of outcomes submitted to the Result Aggregator
and any interleaving of concurrent submitters (the buffered channel
serialises them into one arrival sequence `rs`), after `close()` the
snapshot satisfies `totalCompleted = N` and
`open + closed + filtered + errors = N`; moreover every individual fold
of one outcome into the summary preserves the equality
`open + closed + filtered + errors = totalCompleted`. -/
theorem collector_accounting_invariant (rs : List ScanResult) (s : Summary)
    (hs : summaryConsistent s) :
    ((Collector.collect rs).2.totalScanned = rs.length ∧
      (Collector.collect rs).2.openPorts + (Collector.collect rs).2.closedPorts
        + (Collector.collect rs).2.filtered + (Collector.collect rs).2.errors
        = rs.length) ∧
    ∀ r : ScanResult, summaryConsistent (Collector.updateSummary s r) := by
  have hfold : (Collector.collect rs).2
      = rs.foldl Collector.updateSummary initSummary := by
    unfold Collector.collect
    rw [collect_fold_spec rs [] initSummary]
  have hinit : summaryConsistent initSummary := by decide
  have hmain := summary_fold_invariant rs initSummary hinit
  refine ⟨⟨?_, ?_⟩, ?_⟩
  · rw [hfold]; simpa [initSummary] using hmain.2
  · rw [hfold]
    have h1 := hmain.1
    have h2 := hmain.2
    unfold summaryConsistent at h1
    simp only [initSummary] at h1 h2 ⊢
    omega
  · intro r
    have := summary_fold_invariant [r] s hs
    simpa using this.1

/-- Witness for C1 at a concrete arrival sequence and summary. -/
theorem collector_accounting_invariant_witness :
    summaryConsistent ⟨2, 1, 1, 0, 0⟩ ∧
    (((Collector.collect
        [⟨"10.0.0.1", 80, .statusOpen, ""⟩,
         ⟨"10.0.0.1", 81, .statusClosed, "refused"⟩,
         ⟨"10.0.0.2", 80, .statusFiltered, "timeout"⟩]).2.totalScanned = 3 ∧
      (Collector.collect
        [⟨"10.0.0.1", 80, .statusOpen, ""⟩,
         ⟨"10.0.0.1", 81, .statusClosed, "refused"⟩,
         ⟨"10.0.0.2", 80, .statusFiltered, "timeout"⟩]).2.openPorts
        + (Collector.collect
        [⟨"10.0.0.1", 80, .statusOpen, ""⟩,
         ⟨"10.0.0.1", 81, .statusClosed, "refused"⟩,
         ⟨"10.0.0.2", 80, .statusFiltered, "timeout"⟩]).2.closedPorts
        + (Collector.collect
        [⟨"10.0.0.1", 80, .statusOpen, ""⟩,
         ⟨"10.0.0.1", 81, .statusClosed, "refused"⟩,
         ⟨"10.0.0.2", 80, .statusFiltered, "timeout"⟩]).2.filtered
        + (Collector.collect
        [⟨"10.0.0.1", 80, .statusOpen, ""⟩,
         ⟨"10.0.0.1", 81, .statusClosed, "refused"⟩,
         ⟨"10.0.0.2", 80, .statusFiltered, "timeout"⟩]).2.errors = 3) ∧
    ∀ r : ScanResult,
      summaryConsistent (Collector.updateSummary ⟨2, 1, 1, 0, 0⟩ r)) :=
  ⟨by decide, collector_accounting_invariant
      [⟨"10.0.0.1", 80, .statusOpen, ""⟩,
       ⟨"10.0.0.1", 81, .statusClosed, "refused"⟩,
       ⟨"10.0.0.2", 80, .statusFiltered, "timeout"⟩]
      ⟨2, 1, 1, 0, 0⟩ (by decide)⟩

/-- C2: every probe of one (host, port) task produces exactly one
outcome (the single unconditional send in `Worker.scan`), whose status
is `open` iff the TCP connection attempt succeeds, `filtered` iff the
attempt fails with a timeout error, and `closed` for every other
connection failure. -/
theorem worker_scan_classification (t : ScanTask) (d : DialResult) :
    (Worker.emit t d).length = 1 ∧
    ((Worker.scan t d).status = .statusOpen ↔ d = .connected) ∧
    ((Worker.scan t d).status = .statusFiltered
      ↔ ∃ m, d = .dialFailed true m) ∧
    ((Worker.scan t d).status = .statusClosed
      ↔ ∃ m, d = .dialFailed false m) := by
  rcases d with _ | ⟨isTimeout, msg⟩
  · exact ⟨rfl, by simp [Worker.scan], by simp [Worker.scan],
      by simp [Worker.scan]⟩
  · cases isTimeout <;>
      exact ⟨rfl, by simp [Worker.scan], by simp [Worker.scan],
        by simp [Worker.scan]⟩

/-- C8 counterexample: a probe failing from resource exhaustion
(`socket: too many open files`), which is not a timeout, yields status
`closed`, not the `error` status the claim requires. -/
theorem worker_exhaustion_not_error_status :
    (Worker.scan ⟨"192.168.0.1", 22⟩
        (.dialFailed false "socket: too many open files")).status
      = .statusClosed ∧
    (Worker.scan ⟨"192.168.0.1", 22⟩
        (.dialFailed false "socket: too many open files")).status
      ≠ .statusError := by
  exact ⟨rfl, by decide⟩

/-- C8 (amended): when a probe fails with a non-timeout error — resource
exhaustion included — the outcome for that one task carries the `closed`
status (the worker never produces the `error` status at all), and the
session is not aborted: the worker still emits exactly one outcome
rather than propagating the failure. -/
theorem worker_nontimeout_failure_closed (t : ScanTask) (m : String) :
    (Worker.scan t (.dialFailed false m)).status = .statusClosed ∧
    (∀ d : DialResult, (Worker.scan t d).status ≠ .statusError) ∧
    (∀ d : DialResult, (Worker.emit t d).length = 1) := by
  refine ⟨rfl, ?_, fun _ => rfl⟩
  intro d
  rcases d with _ | ⟨isTimeout, msg⟩
  · simp [Worker.scan]
  · cases isTimeout <;> simp [Worker.scan]

/-! ## Port parsing: `internal/parser` (`ParsePorts`, `parsePortRange`,
`validatePort`).  Go strings are handled through their character lists so
that everything reduces inside the kernel; `goSplit` mirrors
`strings.Split` with a one-character separator and `goTrim` mirrors
`strings.TrimSpace`. -/

/-- Embeds `strings.Split` on a single-character separator, on char lists:
splitting the empty string yields one empty field, and adjacent
separators yield empty fields. -/
def splitChar (sep : Char) : List Char → List (List Char)
  | [] => [[]]
  | c :: rest =>
    match splitChar sep rest with
    | [] => [[]]
    | g :: gs => if c = sep then [] :: g :: gs else (c :: g) :: gs

/-- Embeds `strings.Split(s, sep)` for a one-character `sep`. -/
def goSplit (sep : Char) (s : String) : List String :=
  (splitChar sep s.data).map fun cs => ⟨cs⟩

/-- Embeds `strings.TrimSpace`: drop whitespace from both ends. -/
def goTrim (s : String) : String :=
  ⟨((s.data.dropWhile Char.isWhitespace).reverse.dropWhile
      Char.isWhitespace).reverse⟩

/-- Accumulate a base-10 digit string; `none` on the first non-digit. -/
def digitsVal : List Char → Nat → Option Nat
  | [], acc => some acc
  | c :: rest, acc =>
    if c.isDigit then digitsVal rest (acc * 10 + (c.toNat - 48)) else none

/-- Digits of a (sign-stripped) numeral; the empty numeral is an error. -/
def atoiNat (cs : List Char) : Option Nat :=
  match cs with
  | [] => none
  | _ => digitsVal cs 0

/-- Embeds `strconv.Atoi`: optional sign, base-10 digits, 64-bit `int` range;
`none` models a non-nil error (syntax or range). -/
def atoi (s : String) : Option Int :=
  match s.data with
  | [] => none
  | '+' :: rest =>
      (atoiNat rest).bind fun n =>
        if n ≤ 9223372036854775807 then some (Int.ofNat n) else none
  | '-' :: rest =>
      (atoiNat rest).bind fun n =>
        if n ≤ 9223372036854775808 then some (-(Int.ofNat n)) else none
  | cs =>
      (atoiNat cs).bind fun n =>
        if n ≤ 9223372036854775807 then some (Int.ofNat n) else none

/-- The errors `ParsePorts`/`parsePortRange`/`validatePort` build with
`fmt.Errorf`, one constructor per format string. -/
inductive PortError where
  | invalidPort (tok : String)
  | portOutOfRange (p : Int)
  | invalidRangeFormat (spec : String)
  | invalidRangeStart (spec : String)
  | invalidRangeEnd (spec : String)
  | startPortOutOfRange (p : Int)
  | endPortOutOfRange (p : Int)
  | startAfterEnd (rangeStart rangeEnd : Int)
  | rangeTooLarge (count : Int)
  | noValidPorts
deriving DecidableEq

/-- Embeds `validatePort`: `some p` is the non-nil "port out of valid range"
error carrying the offending port, `none` is success. -/
def validatePort (p : Int) : Option Int :=
  if p < 1 || p > 65535 then some p else none

/-- Embeds `parsePortRange`: split on `-`, `Atoi` both trimmed endpoints,
validate each, reject inverted ranges, reject ranges wider than 65535,
else enumerate `start..end`. -/
def parsePortRange (spec : String) : Except PortError (List Int) :=
  match goSplit '-' spec with
  | [a, b] =>
    match atoi (goTrim a) with
    | none => .error (.invalidRangeStart spec)
    | some rangeStart =>
      match atoi (goTrim b) with
      | none => .error (.invalidRangeEnd spec)
      | some rangeEnd =>
        match validatePort rangeStart with
        | some p => .error (.startPortOutOfRange p)
        | none =>
          match validatePort rangeEnd with
          | some p => .error (.endPortOutOfRange p)
          | none =>
            if rangeStart > rangeEnd then
              .error (.startAfterEnd rangeStart rangeEnd)
            else if rangeEnd - rangeStart > 65535 then
              .error (.rangeTooLarge (rangeEnd - rangeStart + 1))
            else
              .ok ((List.range (rangeEnd - rangeStart + 1).toNat).map
                fun i => rangeStart + i)
  | _ => .error (.invalidRangeFormat spec)

/-- The `seen` map plus append of `ParsePorts`: add a port unless
already collected, preserving first-seen order. -/
def addPort (acc : List Int) (p : Int) : List Int :=
  if p ∈ acc then acc else acc ++ [p]

/-- Fold a range expansion through the `seen` check. -/
def addPorts (acc : List Int) (ps : List Int) : List Int :=
  ps.foldl addPort acc

/-- One iteration of the `ParsePorts` loop on a comma-separated token:
trim, skip empty, ranges go through `parsePortRange`, single ports
through `Atoi` and `validatePort`. -/
def processToken (tok : String) (acc : List Int) :
    Except PortError (List Int) :=
  let part := goTrim tok
  if part = "" then .ok acc
  else if part.data.contains '-' then
    match parsePortRange part with
    | .error e => .error e
    | .ok ps => .ok (addPorts acc ps)
  else
    match atoi part with
    | none => .error (.invalidPort part)
    | some p =>
      match validatePort p with
      | some q => .error (.portOutOfRange q)
      | none => .ok (addPort acc p)

/-- The `ParsePorts` loop over all comma-separated tokens; an empty
final collection is the "no valid ports found" error. -/
def parsePortsGo : List String → List Int → Except PortError (List Int)
  | [], acc => if acc.isEmpty then .error .noValidPorts else .ok acc
  | tok :: rest, acc =>
    match processToken tok acc with
    | .error e => .error e
    | .ok acc' => parsePortsGo rest acc'

/-- Embeds `parser.ParsePorts`. -/
def ParsePorts (spec : String) : Except PortError (List Int) :=
  parsePortsGo (goSplit ',' spec) []

/-- Processing one token either succeeds for every accumulator or fails
with one fixed error for every accumulator: the error branches of
`processToken` never look at `acc`. -/
theorem processToken_cases (t : String) :
    (∀ acc, ∃ r, processToken t acc = .ok r) ∨
      (∃ e, ∀ acc, processToken t acc = .error e) := by
  by_cases h1 : goTrim t = ""
  · exact .inl fun acc => ⟨acc, by simp [processToken, h1]⟩
  · by_cases h2 : '-' ∈ (goTrim t).data
    · cases hr : parsePortRange (goTrim t) with
      | error e =>
          exact .inr ⟨e, fun acc => by simp [processToken, h1, h2, hr]⟩
      | ok ps =>
          exact .inl fun acc =>
            ⟨addPorts acc ps, by simp [processToken, h1, h2, hr]⟩
    · cases ha : atoi (goTrim t) with
      | none =>
          exact .inr ⟨.invalidPort (goTrim t),
            fun acc => by simp [processToken, h1, h2, ha]⟩
      | some p =>
          cases hv : validatePort p with
          | none =>
              exact .inl fun acc =>
                ⟨addPort acc p, by simp [processToken, h1, h2, ha, hv]⟩
          | some q =>
              exact .inr ⟨.portOutOfRange q,
                fun acc => by simp [processToken, h1, h2, ha, hv]⟩

/-- C7: port expansion fails with the invalid-port error on `"0"` and on
`"70000"` (out of range 1..65535) and with the start-greater-than-end
error on `"100-50"`; and the loop aborts at the first invalid token —
whatever tokens follow and whatever was already collected, the result is
that token's error and no port list. -/
theorem parsePorts_rejects_invalid_fail_fast :
    ParsePorts "0" = .error (.portOutOfRange 0) ∧
    ParsePorts "70000" = .error (.portOutOfRange 70000) ∧
    ParsePorts "100-50" = .error (.startAfterEnd 100 50) ∧
    ∀ (pre : List String) (tok : String) (post : List String)
      (acc : List Int) (e : PortError),
      processToken tok [] = .error e →
      (∀ u ∈ pre, ∃ ps, processToken u [] = .ok ps) →
      parsePortsGo (pre ++ tok :: post) acc = .error e := by
  refine ⟨by rfl, by rfl, by rfl, ?_⟩
  intro pre
  induction pre with
  | nil =>
      intro tok post acc e htok _
      rcases processToken_cases tok with hok | ⟨e', herr⟩
      · rcases hok [] with ⟨r, hr⟩
        rw [htok] at hr
        cases hr
      · have : e' = e := by
          have := herr []
          rw [htok] at this
          exact (Except.error.inj this).symm
        subst this
        simp [parsePortsGo, herr acc]
  | cons u pre ih =>
      intro tok post acc e htok hpre
      rcases processToken_cases u with hok | ⟨e', herr⟩
      · rcases hok acc with ⟨r, hr⟩
        simp only [List.cons_append, parsePortsGo, hr]
        exact ih tok post r e htok fun v hv => hpre v (List.mem_cons_of_mem u hv)
      · rcases hpre u (List.mem_cons_self u pre) with ⟨ps, hu⟩
        rw [herr []] at hu
        cases hu

/-- Witness for C7's fail-fast clause: the spec `80,0,443` aborts on the
invalid token `0` with its out-of-range error. -/
theorem parsePorts_rejects_invalid_fail_fast_witness :
    processToken "0" ([] : List Int) = .error (.portOutOfRange 0) ∧
    (∀ u ∈ ["80"], ∃ ps, processToken u [] = .ok ps) ∧
    parsePortsGo ["80", "0", "443"] [] = .error (.portOutOfRange 0) :=
  ⟨by rfl, by intro u hu; simp at hu; exact ⟨[80], by subst hu; rfl⟩,
    parsePorts_rejects_invalid_fail_fast.2.2.2 ["80"] "0" ["443"] []
      (.portOutOfRange 0) (by rfl)
      (by intro u hu; simp at hu; exact ⟨[80], by subst hu; rfl⟩)⟩

/-- Validation succeeds exactly on ports 1..65535. -/
theorem validatePort_none_iff (p : Int) :
    validatePort p = none ↔ 1 ≤ p ∧ p ≤ 65535 := by
  unfold validatePort
  split <;> rename_i h <;> simp_all <;> try omega

/-- Range parsing never produces the range-too-large error: both
endpoints are validated into 1..65535 before the size check, so the
width is at most 65534. -/
theorem parsePortRange_not_too_large (spec : String) (k : Int) :
    parsePortRange spec ≠ .error (.rangeTooLarge k) := by
  intro h
  unfold parsePortRange at h
  split at h
  next a b =>
    split at h
    next => cases h
    next rangeStart hs =>
      split at h
      next => cases h
      next rangeEnd he =>
        split at h
        next p hp => cases h
        next hvs =>
          split at h
          next p hp => cases h
          next hve =>
            have hsb := (validatePort_none_iff rangeStart).1 hvs
            have heb := (validatePort_none_iff rangeEnd).1 hve
            split at h
            next => cases h
            next hgt =>
              split at h
              next hwide => omega
              next => cases h
  next => cases h

/-- No step of the `ParsePorts` loop produces the range-too-large
error. -/
theorem processToken_not_too_large (t : String) (acc : List Int)
    (k : Int) : processToken t acc ≠ .error (.rangeTooLarge k) := by
  intro h
  unfold processToken at h
  dsimp only at h
  split at h
  · cases h
  · split at h
    · split at h
      next e hr =>
        cases h
        exact parsePortRange_not_too_large _ _ hr
      next => cases h
    · split at h
      next => cases h
      next p ha =>
        split at h
        next q hv => cases h
        next => cases h

/-- C9: for every input string, port expansion never returns the
range-too-large error — the guard `end - start > 65535` sits behind the
1..65535 validation of both endpoints, so the branch is unreachable. -/
theorem parsePorts_range_too_large_unreachable (spec : String) (k : Int) :
    parsePortRange spec ≠ .error (.rangeTooLarge k) ∧
    ParsePorts spec ≠ .error (.rangeTooLarge k) := by
  refine ⟨parsePortRange_not_too_large spec k, ?_⟩
  unfold ParsePorts
  generalize goSplit ',' spec = parts
  generalize ([] : List Int) = acc
  induction parts generalizing acc with
  | nil =>
      intro h
      unfold parsePortsGo at h
      split at h
      · cases h
      · cases h
  | cons t rest ih =>
      intro h
      unfold parsePortsGo at h
      split at h
      next e hp =>
        cases h
        exact processToken_not_too_large _ _ _ hp
      next acc' hp =>
        exact ih acc' h

/-! ## Rate limiter interval: `scanner.New` computes
`interval := time.Second / time.Duration(cfg.RateLimit)` — an integer
division of 10^9 nanoseconds by the configured rate. -/

/-- The ticker interval in nanoseconds chosen by `scanner.New` for a
rate limit `r > 0` (`time.Second` is `10^9` ns; `time.Duration`
division is integer division, which on positives truncates). -/
def tickerIntervalNs (r : Nat) : Nat := 1000000000 / r

/-- C10: for every configured rate limit R > 0 the dispatch interval is
floor(10^9 / R) nanoseconds; whenever R does not divide 10^9 the
interval satisfies R * interval < 10^9, i.e. the pacing is strictly
faster than one task per 1/R seconds; and for every R > 10^9 the
computed interval is 0, not a positive ticker interval. -/
theorem rate_interval_floor_division (r : Nat) (hr : 0 < r) :
    tickerIntervalNs r * r ≤ 1000000000 ∧
    (¬ r ∣ 1000000000 → tickerIntervalNs r * r < 1000000000) ∧
    (1000000000 < r → tickerIntervalNs r = 0) := by
  refine ⟨Nat.div_mul_le_self _ _, ?_, ?_⟩
  · intro hnd
    have hmod : 1000000000 % r ≠ 0 := fun hc =>
      hnd (Nat.dvd_iff_mod_eq_zero.2 hc)
    have := Nat.div_add_mod 1000000000 r
    have hlt : 1000000000 % r < r := Nat.mod_lt _ hr
    unfold tickerIntervalNs
    rw [Nat.mul_comm]
    omega
  · intro hbig
    exact Nat.div_eq_of_lt hbig

/-- Witness for C10 at R = 3 (3 does not divide 10^9, interval is
333333333 ns) — instantiating the theorem at a concrete positive rate. -/
theorem rate_interval_floor_division_witness :
    0 < 3 ∧
    (tickerIntervalNs 3 * 3 ≤ 1000000000 ∧
      (¬ 3 ∣ 1000000000 → tickerIntervalNs 3 * 3 < 1000000000) ∧
      (1000000000 < 3 → tickerIntervalNs 3 = 0)) :=
  ⟨by decide, rate_interval_floor_division 3 (by decide)⟩

/-! ## Cancellation: `Scanner.generateTasks`, `Scanner.Scan`,
`cmd/netscout/main.go`.

The shared `context.Context` is modelled by the submission count at
which `ctx.Done()` becomes closed (`some k`: the signal fires once `k`
tasks have been submitted; `none`: it never fires).  `generateTasks`
checks the signal at the top of each loop iteration (and the rate
limiter and `Pool.Submit` re-check the same signal, collapsing to the
same observation), so on cancellation it stops at once and returns
`ctx.Err() = context.Canceled`. -/

/-- The terminal errors `Scanner.Scan` can return: `context.Canceled`
propagated out of `generateTasks`/`Pool.Submit`, or a wrapped
`WriteResults` failure.  These are distinct values. -/
inductive ScanError where
  | canceled
  | writeFailed
deriving DecidableEq

/-- Embeds `Scanner.generateTasks`: submit tasks host-major until done or until
the cancellation signal fires; returns the submitted tasks and
`some canceled` when the context is cancelled first. -/
def generateTasks :
    List ScanTask → Option Nat → List ScanTask × Option ScanError
  | [], _ => ([], none)
  | _ :: _, some 0 => ([], some .canceled)
  | t :: rest, some (k + 1) =>
      let r := generateTasks rest (some k)
      (t :: r.1, r.2)
  | t :: rest, none =>
      let r := generateTasks rest none
      (t :: r.1, r.2)

/-- The tail of `Scanner.Scan`: after draining, it writes the collected
results and then returns the error from `generateTasks`; a failing write
is returned instead. -/
def scanReturn (genErr : Option ScanError) (writeOk : Bool) :
    Option ScanError :=
  if writeOk then genErr else some .writeFailed

/-- Embeds `main`: exit 0 on success, 130 when `Scan` returned
`context.Canceled`, 1 on any other failure. -/
def mainExitCode : Option ScanError → Nat
  | none => 0
  | some .canceled => 130
  | some .writeFailed => 1

/-- C4: if the cancellation signal fires after `k` of the tasks, with
more still unsubmitted, then `generateTasks` stops having submitted
exactly the first `k` tasks and `Scan` returns the distinguished
cancelled error — distinct from ordinary failures — so the process
exits with code 130; and the partial results already aggregated remain
valid (counters consistent) and retrievable (`GetResults` hands back
exactly the collected sequence). -/
theorem scan_cancelled_distinguished (tasks : List ScanTask) (k : Nat)
    (hk : k < tasks.length) :
    (generateTasks tasks (some k)).2 = some .canceled ∧
    (generateTasks tasks (some k)).1 = tasks.take k ∧
    scanReturn (generateTasks tasks (some k)).2 true = some .canceled ∧
    ScanError.canceled ≠ ScanError.writeFailed ∧
    mainExitCode (scanReturn (generateTasks tasks (some k)).2 true) = 130 ∧
    ∀ rs : List ScanResult,
      Collector.getResults rs = rs ∧
        summaryConsistent (rs.foldl Collector.updateSummary initSummary) := by
  have hgen : (generateTasks tasks (some k)).2 = some .canceled ∧
      (generateTasks tasks (some k)).1 = tasks.take k := by
    induction tasks generalizing k with
    | nil => simp at hk
    | cons t rest ih =>
        cases k with
        | zero => simp [generateTasks]
        | succ k =>
            have hk' : k < rest.length := by
              simpa using Nat.lt_of_succ_lt_succ hk
            have := ih k hk'
            simp [generateTasks, this.1, this.2]
  refine ⟨hgen.1, hgen.2, ?_, by decide, ?_, ?_⟩
  · rw [hgen.1]; rfl
  · rw [hgen.1]; rfl
  · intro rs
    exact ⟨rfl,
      (summary_fold_invariant rs initSummary (by decide)).1⟩

/-- Witness for C4: a two-task scan cancelled after the first
submission. -/
theorem scan_cancelled_distinguished_witness :
    1 < ([⟨"10.0.0.1", 80⟩, ⟨"10.0.0.1", 443⟩] : List ScanTask).length ∧
    ((generateTasks [⟨"10.0.0.1", 80⟩, ⟨"10.0.0.1", 443⟩] (some 1)).2
        = some .canceled ∧
      (generateTasks [⟨"10.0.0.1", 80⟩, ⟨"10.0.0.1", 443⟩] (some 1)).1
        = ([⟨"10.0.0.1", 80⟩, ⟨"10.0.0.1", 443⟩] : List ScanTask).take 1 ∧
      scanReturn
          (generateTasks [⟨"10.0.0.1", 80⟩, ⟨"10.0.0.1", 443⟩] (some 1)).2
          true = some .canceled ∧
      ScanError.canceled ≠ ScanError.writeFailed ∧
      mainExitCode (scanReturn
          (generateTasks [⟨"10.0.0.1", 80⟩, ⟨"10.0.0.1", 443⟩] (some 1)).2
          true) = 130 ∧
      ∀ rs : List ScanResult,
        Collector.getResults rs = rs ∧
          summaryConsistent (rs.foldl Collector.updateSummary initSummary)) :=
  ⟨by decide,
    scan_cancelled_distinguished [⟨"10.0.0.1", 80⟩, ⟨"10.0.0.1", 443⟩] 1
      (by decide)⟩

/-! ## Result ordering: `Collector.WriteResults` sorts the collected
slice in place by `(IP, Port)` with `sort.Slice` just before rendering;
`GetResults` copies the stored slice without sorting; the collect loop
appends in arrival order. -/

/-- Byte-wise lexicographic string comparison (Go's `<` on strings),
on character lists; IPs here are ASCII, where byte order and
codepoint order coincide. -/
def goCharListLt : List Char → List Char → Bool
  | [], [] => false
  | [], _ :: _ => true
  | _ :: _, [] => false
  | x :: xs, y :: ys =>
      if x = y then goCharListLt xs ys else decide (x.toNat < y.toNat)

/-- Go `a < b` on strings. -/
def goStringLt (a b : String) : Bool := goCharListLt a.data b.data

/-- The `less` closure passed to `sort.Slice` in `WriteResults`:
IPs first, ports to break ties. -/
def resultLess (a b : ScanResult) : Bool :=
  if a.ip ≠ b.ip then goStringLt a.ip b.ip else decide (a.port < b.port)

/-- The non-strict order a `sort.Slice` output satisfies: `a` may sit
before `b` exactly when `b` is not strictly less than `a`. -/
def resultLe (a b : ScanResult) : Bool := !(resultLess b a)

/-- The ordering `WriteResults` imposes on the stored results, applied
once at retrieval time. -/
def Collector.writeResultsOrder (rs : List ScanResult) : List ScanResult :=
  rs.mergeSort resultLe

/-- Comparing equal heads defers to the tails. -/
theorem goCharListLt_cons_self (x : Char) (xs ys : List Char) :
    goCharListLt (x :: xs) (x :: ys) = goCharListLt xs ys := by
  simp [goCharListLt]

/-- Comparing distinct heads decides on the heads alone. -/
theorem goCharListLt_cons_ne (x y : Char) (xs ys : List Char)
    (h : x ≠ y) :
    goCharListLt (x :: xs) (y :: ys) = decide (x.toNat < y.toNat) := by
  simp [goCharListLt, h]

/-- Strict lexicographic comparison is asymmetric. -/
theorem goCharListLt_asymm (a b : List Char)
    (h : goCharListLt a b = true) : goCharListLt b a = false := by
  induction a generalizing b with
  | nil =>
      cases b with
      | nil => simpa [goCharListLt] using h
      | cons y ys => simp [goCharListLt]
  | cons x xs ih =>
      cases b with
      | nil => simp [goCharListLt] at h
      | cons y ys =>
          by_cases hxy : x = y
          · subst hxy
            rw [goCharListLt_cons_self] at h ⊢
            exact ih ys h
          · have hyx : y ≠ x := fun hc => hxy hc.symm
            rw [goCharListLt_cons_ne x y xs ys hxy,
              decide_eq_true_eq] at h
            rw [goCharListLt_cons_ne y x ys xs hyx,
              decide_eq_false_iff_not]
            omega

/-- Strict lexicographic comparison is transitive. -/
theorem goCharListLt_trans (a b c : List Char)
    (hab : goCharListLt a b = true) (hbc : goCharListLt b c = true) :
    goCharListLt a c = true := by
  induction a generalizing b c with
  | nil =>
      cases b with
      | nil => simp [goCharListLt] at hab
      | cons y ys =>
          cases c with
          | nil => simp [goCharListLt] at hbc
          | cons z zs => simp [goCharListLt]
  | cons x xs ih =>
      cases b with
      | nil => simp [goCharListLt] at hab
      | cons y ys =>
          cases c with
          | nil => simp [goCharListLt] at hbc
          | cons z zs =>
              by_cases hxy : x = y <;> by_cases hyz : y = z
              · subst hxy; subst hyz
                rw [goCharListLt_cons_self] at hab hbc ⊢
                exact ih ys zs hab hbc
              · subst hxy
                rw [goCharListLt_cons_ne x z ys zs hyz] at hbc
                rw [goCharListLt_cons_ne x z xs zs hyz]
                exact hbc
              · subst hyz
                rw [goCharListLt_cons_ne x y xs ys hxy] at hab
                rw [goCharListLt_cons_ne x y xs zs hxy]
                exact hab
              · rw [goCharListLt_cons_ne x y xs ys hxy,
                  decide_eq_true_eq] at hab
                rw [goCharListLt_cons_ne y z ys zs hyz,
                  decide_eq_true_eq] at hbc
                have hxz : x ≠ z := fun hc => by
                  subst hc
                  omega
                rw [goCharListLt_cons_ne x z xs zs hxz,
                  decide_eq_true_eq]
                omega

/-- Distinct lists are strictly comparable one way or the other. -/
theorem goCharListLt_connex (a b : List Char) (h : a ≠ b) :
    goCharListLt a b = true ∨ goCharListLt b a = true := by
  induction a generalizing b with
  | nil =>
      cases b with
      | nil => exact absurd rfl h
      | cons y ys => exact .inl (by simp [goCharListLt])
  | cons x xs ih =>
      cases b with
      | nil => exact .inr (by simp [goCharListLt])
      | cons y ys =>
          by_cases hxy : x = y
          · subst hxy
            have hxs : xs ≠ ys := fun hc => h (by rw [hc])
            rcases ih ys hxs with h1 | h1
            · exact .inl (by rw [goCharListLt_cons_self]; exact h1)
            · exact .inr (by rw [goCharListLt_cons_self]; exact h1)
          · have hyx : y ≠ x := fun hc => hxy hc.symm
            have hnat : x.toNat ≠ y.toNat := fun hc =>
              hxy (Char.ext (UInt32.toNat.inj hc))
            rcases Nat.lt_or_ge x.toNat y.toNat with h1 | h1
            · exact .inl (by
                rw [goCharListLt_cons_ne x y xs ys hxy,
                  decide_eq_true_eq]
                exact h1)
            · exact .inr (by
                rw [goCharListLt_cons_ne y x ys xs hyx,
                  decide_eq_true_eq]
                omega)

/-- Distinct strings are strictly comparable one way or the other. -/
theorem goStringLt_connex (a b : String) (h : a ≠ b) :
    goStringLt a b = true ∨ goStringLt b a = true := by
  apply goCharListLt_connex
  intro hc
  rcases a with ⟨da⟩
  rcases b with ⟨db⟩
  cases hc
  exact h rfl

/-- What `resultLe a b` says: equal IPs with non-decreasing ports, or
distinct IPs with `b`'s IP not below `a`'s. -/
theorem resultLe_iff (a b : ScanResult) :
    resultLe a b = true ↔
      ((a.ip = b.ip ∧ a.port ≤ b.port) ∨
        (a.ip ≠ b.ip ∧ goStringLt b.ip a.ip = false)) := by
  unfold resultLe resultLess
  by_cases h : b.ip = a.ip
  · rw [if_neg (not_not_intro h)]
    simp only [Bool.not_eq_true', decide_eq_false_iff_not, Int.not_lt]
    constructor
    · intro hp
      exact .inl ⟨h.symm, hp⟩
    · rintro (⟨_, hp⟩ | ⟨hne, _⟩)
      · exact hp
      · exact absurd h.symm hne
  · rw [if_pos h]
    simp only [Bool.not_eq_true']
    constructor
    · intro hlt
      exact .inr ⟨fun hc => h hc.symm, hlt⟩
    · rintro (⟨heq, _⟩ | ⟨_, hlt⟩)
      · exact absurd heq.symm h
      · exact hlt

/-- The `sort.Slice` order `resultLe` is transitive. -/
theorem resultLe_trans (a b c : ScanResult)
    (hab : resultLe a b = true) (hbc : resultLe b c = true) :
    resultLe a c = true := by
  rw [resultLe_iff] at hab hbc ⊢
  rcases hab with ⟨e1, p1⟩ | ⟨n1, f1⟩
  · rcases hbc with ⟨e2, p2⟩ | ⟨n2, f2⟩
    · exact .inl ⟨e1.trans e2, le_trans p1 p2⟩
    · refine .inr ⟨fun hc => n2 (e1.symm.trans hc), ?_⟩
      rw [← e1] at f2
      exact f2
  · rcases hbc with ⟨e2, p2⟩ | ⟨n2, f2⟩
    · refine .inr ⟨fun hc => n1 (hc.trans e2.symm), ?_⟩
      rw [e2] at f1
      exact f1
    · by_cases hca : c.ip = a.ip
      · exfalso
        have h1 : goStringLt a.ip b.ip = true := by
          rcases goStringLt_connex a.ip b.ip n1 with h | h
          · exact h
          · rw [h] at f1
            cases f1
        have h2 : goStringLt b.ip c.ip = true := by
          rcases goStringLt_connex b.ip c.ip n2 with h | h
          · exact h
          · rw [h] at f2
            cases f2
        have h3 : goStringLt a.ip c.ip = true :=
          goCharListLt_trans _ _ _ h1 h2
        rw [hca] at h3
        have h4 : goStringLt a.ip a.ip = false :=
          goCharListLt_asymm _ _ h3
        cases h3.symm.trans h4
      · refine .inr ⟨fun hc => hca hc.symm, ?_⟩
        have h1 : goStringLt a.ip b.ip = true := by
          rcases goStringLt_connex a.ip b.ip n1 with h | h
          · exact h
          · rw [h] at f1
            cases f1
        have h2 : goStringLt b.ip c.ip = true := by
          rcases goStringLt_connex b.ip c.ip n2 with h | h
          · exact h
          · rw [h] at f2
            cases f2
        exact goCharListLt_asymm _ _ (goCharListLt_trans _ _ _ h1 h2)

/-- The strict comparator is asymmetric, so `resultLe` is total. -/
theorem resultLess_asymm (a b : ScanResult)
    (h : resultLess a b = true) : resultLess b a = false := by
  unfold resultLess at *
  by_cases hip : a.ip = b.ip
  · rw [if_neg (not_not_intro hip)] at h
    rw [if_neg (not_not_intro hip.symm)]
    rw [decide_eq_true_eq] at h
    rw [decide_eq_false_iff_not]
    omega
  · have hip' : b.ip ≠ a.ip := fun hc => hip hc.symm
    rw [if_pos hip] at h
    rw [if_pos hip']
    exact goCharListLt_asymm _ _ h

/-- The `sort.Slice` order `resultLe` is total. -/
theorem resultLe_total (a b : ScanResult) :
    (resultLe a b || resultLe b a) = true := by
  unfold resultLe
  cases hba : resultLess b a with
  | false => simp
  | true => simp [resultLess_asymm b a hba]

/-- C5: for every scan, the retrieval-time view of the collected
outcomes is sorted by (host, port) ascending — `WriteResults` applies
the sort exactly once at retrieval, as a permutation of what was
collected — while collection itself is purely incremental: the collect
loop stores outcomes in arrival order and `GetResults` hands the stored
sequence back unchanged, so no sorting is maintained during
collection. -/
theorem results_sorted_once_at_retrieval (rs : List ScanResult) :
    (Collector.collect rs).1 = rs ∧
    Collector.getResults rs = rs ∧
    (Collector.writeResultsOrder rs).Perm rs ∧
    List.Pairwise (fun a b : ScanResult =>
        goStringLt a.ip b.ip = true ∨ (a.ip = b.ip ∧ a.port ≤ b.port))
      (Collector.writeResultsOrder rs) := by
  refine ⟨?_, rfl, ?_, ?_⟩
  · unfold Collector.collect
    rw [collect_fold_spec rs [] initSummary]
    simp
  · exact List.mergeSort_perm rs resultLe
  · have hp := @List.sorted_mergeSort ScanResult resultLe
      resultLe_trans resultLe_total rs
    refine List.Pairwise.imp ?_ hp
    intro a b hle
    rcases (resultLe_iff a b).1 hle with ⟨he, hpt⟩ | ⟨hne, hf⟩
    · exact .inr ⟨he, hpt⟩
    · rcases goStringLt_connex a.ip b.ip hne with h | h
      · exact .inl h
      · rw [h] at hf
        cases hf
/-! ## CIDR expansion: `parser.parseCIDR` and `parser.incrementIP`.

IPv4 addresses are naturals below `2^32`.  A CIDR block with prefix
length `n` has size `2^(32-n)`; `net.ParseCIDR` hands back the aligned
network base `ip.Mask(ipNet.Mask)`, modelled as `q * 2^(32-n)` with
`q < 2^n`.  `ipNet.Contains` masks its argument with the prefix mask
and compares against the network. -/

/-- Embeds `parser.incrementIP`: byte-wise increment with carry over the
4-byte address, i.e. +1 modulo `2^32`. -/
def incrementIP (ip : Nat) : Nat := (ip + 1) % 4294967296

/-- Embeds `ip.Mask(mask)` for a `/n` prefix mask: clear the low `32-n` bits. -/
def maskIP (n ip : Nat) : Nat := ip / 2 ^ (32 - n) * 2 ^ (32 - n)

/-- Embeds `ipNet.Contains(ip)`: the masked address equals the network base. -/
def cidrContains (network n ip : Nat) : Bool := maskIP n ip == network

/-- The `for ip := ip.Mask(ipNet.Mask); ipNet.Contains(ip);
incrementIP(ip)` loop of `parseCIDR`.  The loop's whole state is the
current address `cur ∈ [0, 2^32)`, stepped deterministically by
`incrementIP`, so a run that has not left the `Contains` guard within
`2^32 + 1` iterations has revisited a state and the Go loop diverges.
`cidrLoop` therefore returns `none` exactly when the fuel — always
instantiated to `2^32 + 1` below — runs out, i.e. exactly when the Go
loop never terminates, and `some ips` exactly when the Go loop
terminates having collected `ips`. -/
def cidrLoop : Nat → Nat → Nat → Nat → Option (List Nat)
  | 0, _, _, _ => none
  | fuel + 1, cur, network, n =>
    if cidrContains network n cur then
      match cidrLoop fuel (incrementIP cur) network n with
      | none => none
      | some ips => some (cur :: ips)
    else some []

/-- The final trim of `parseCIDR`: `if len(ips) > 2 then
ips[1 : len(ips)-1]`, dropping the network and broadcast addresses. -/
def trimHosts (ips : List Nat) : List Nat :=
  if 2 < ips.length then (ips.drop 1).dropLast else ips

/-- Embeds `parser.parseCIDR` on a parsed block: enumerate from the
network base while contained, then trim.  `none` marks the runs on
which the Go enumeration loop never terminates. -/
def parseCIDR (network n : Nat) : Option (List Nat) :=
  Option.map trimHosts (cidrLoop 4294967297 network network n)

/-- Addresses inside the block are `Contains`-accepted. -/
theorem cidrContains_in (n q k : Nat) (hk : k < 2 ^ (32 - n)) :
    cidrContains (q * 2 ^ (32 - n)) n (q * 2 ^ (32 - n) + k) = true := by
  unfold cidrContains maskIP
  have hpos : 0 < 2 ^ (32 - n) := pow_pos (by norm_num) _
  rw [Nat.mul_comm q (2 ^ (32 - n)), Nat.mul_add_div hpos,
    Nat.div_eq_of_lt hk]
  simp [Nat.mul_comm]

/-- The address one past the block is rejected. -/
theorem cidrContains_succ_block (n q : Nat) :
    cidrContains (q * 2 ^ (32 - n)) n ((q + 1) * 2 ^ (32 - n)) = false := by
  unfold cidrContains maskIP
  have hpos : 0 < 2 ^ (32 - n) := pow_pos (by norm_num) _
  rw [Nat.mul_div_cancel _ hpos]
  have h1 : (q + 1) * 2 ^ (32 - n) = q * 2 ^ (32 - n) + 2 ^ (32 - n) := by
    ring
  rw [beq_eq_false_iff_ne]
  omega

/-- Address zero is rejected whenever the network base is positive. -/
theorem cidrContains_zero (n q : Nat) (hq : 1 ≤ q) :
    cidrContains (q * 2 ^ (32 - n)) n 0 = false := by
  unfold cidrContains maskIP
  have hpos : 0 < 2 ^ (32 - n) := pow_pos (by norm_num) _
  rw [Nat.zero_div, Nat.zero_mul, beq_eq_false_iff_ne]
  have := Nat.mul_pos hq hpos
  omega

/-- The Go loop enumerates exactly the remaining block: starting `k`
addresses into a `/n` block (`1 ≤ n ≤ 32`) with `d` addresses left and
fuel to spare, it lists them in increasing order and stops. -/
theorem cidrLoop_enum (n q : Nat) (hn1 : 1 ≤ n) (hn2 : n ≤ 32)
    (hq : q < 2 ^ n) :
    ∀ d k fuel, k + d = 2 ^ (32 - n) → d < fuel →
      cidrLoop fuel (q * 2 ^ (32 - n) + k) (q * 2 ^ (32 - n)) n
        = some ((List.range d).map (fun j => q * 2 ^ (32 - n) + k + j)) := by
  have hpos : 0 < 2 ^ (32 - n) := pow_pos (by norm_num) _
  have hpow : 2 ^ n * 2 ^ (32 - n) = 4294967296 := by
    rw [← pow_add]
    have : n + (32 - n) = 32 := by omega
    rw [this]
    norm_num
  have hszle : 2 ^ (32 - n) ≤ 2 ^ 31 :=
    Nat.pow_le_pow_right (by norm_num) (by omega)
  intro d
  induction d with
  | zero =>
      intro k fuel hk hfuel
      obtain ⟨f, rfl⟩ : ∃ f, fuel = f + 1 := ⟨fuel - 1, by omega⟩
      have hcur : q * 2 ^ (32 - n) + k = (q + 1) * 2 ^ (32 - n) := by
        have hk' : k = 2 ^ (32 - n) := by omega
        rw [hk']
        ring
      simp only [cidrLoop, hcur, cidrContains_succ_block n q,
        Bool.false_eq_true, if_false, List.range_zero, List.map_nil]
  | succ d ih =>
      intro k fuel hk hfuel
      obtain ⟨f, rfl⟩ : ∃ f, fuel = f + 1 := ⟨fuel - 1, by omega⟩
      have hklt : k < 2 ^ (32 - n) := by omega
      have hcont := cidrContains_in n q k hklt
      simp only [cidrLoop, hcont, if_true]
      have hle : q * 2 ^ (32 - n) + k + 1 ≤ 4294967296 := by
        have h1 : q + 1 ≤ 2 ^ n := hq
        have h2 : (q + 1) * 2 ^ (32 - n) ≤ 2 ^ n * 2 ^ (32 - n) :=
          Nat.mul_le_mul_right _ h1
        have h4 : (q + 1) * 2 ^ (32 - n)
            = q * 2 ^ (32 - n) + 2 ^ (32 - n) := by ring
        omega
      by_cases hwrap : q * 2 ^ (32 - n) + k + 1 < 4294967296
      · have hinc : incrementIP (q * 2 ^ (32 - n) + k)
            = q * 2 ^ (32 - n) + (k + 1) := by
          unfold incrementIP
          rw [Nat.mod_eq_of_lt hwrap]
          omega
        rw [hinc, ih (k + 1) f (by omega) (by omega),
          List.range_succ_eq_map, List.map_cons, List.map_map]
        refine congrArg some (congrArg₂ List.cons rfl ?_)
        refine List.map_congr_left ?_
        intro j _
        simp only [Function.comp_apply]
        omega
      · have heq : q * 2 ^ (32 - n) + k + 1 = 4294967296 := by omega
        have hinc : incrementIP (q * 2 ^ (32 - n) + k) = 0 := by
          unfold incrementIP
          rw [heq]
        have hd : d = 0 := by
          have hq1 : q ≤ 2 ^ n - 1 := by omega
          have hmul : q * 2 ^ (32 - n) ≤ (2 ^ n - 1) * 2 ^ (32 - n) :=
            Nat.mul_le_mul_right _ hq1
          have hsub : (2 ^ n - 1) * 2 ^ (32 - n)
              = 2 ^ n * 2 ^ (32 - n) - 2 ^ (32 - n) := by
            rw [Nat.sub_mul, Nat.one_mul]
          omega
        subst hd
        have hq1 : 1 ≤ q := by
          by_contra h0
          have hq0 : q = 0 := by omega
          subst hq0
          simp only [Nat.zero_mul, Nat.zero_add] at heq
          omega
        obtain ⟨f', rfl⟩ : ∃ f', f = f' + 1 := ⟨f - 1, by omega⟩
        rw [hinc]
        simp only [cidrLoop, cidrContains_zero n q hq1,
          Bool.false_eq_true, if_false, List.range_succ,
          List.range_zero, List.nil_append, List.map_cons,
          List.map_nil]
        simp

/-- On the `/0` block the `Contains` guard accepts every reachable
address, so the loop consumes any amount of fuel without exiting: the
Go enumeration never terminates. -/
theorem cidrLoop_zero_prefix_none :
    ∀ (fuel cur : Nat), cur < 4294967296 → cidrLoop fuel cur 0 0 = none := by
  intro fuel
  induction fuel with
  | zero =>
      intro cur _
      rfl
  | succ f ih =>
      intro cur hcur
      have h32 : (2 : Nat) ^ (32 - 0) = 4294967296 := by norm_num
      have hcont : cidrContains 0 0 cur = true := by
        unfold cidrContains maskIP
        rw [h32, Nat.div_eq_of_lt hcur]
        simp
      have hnext : incrementIP cur < 4294967296 := by
        unfold incrementIP
        exact Nat.mod_lt _ (by norm_num)
      simp only [cidrLoop, hcont, if_true, ih (incrementIP cur) hnext]

/-- C6 counterexample: `0.0.0.0/0` is a valid CIDR whose block holds
`2^32 > 2` addresses, yet expansion returns nothing at all — the Go
loop wraps from 255.255.255.255 back to 0.0.0.0, which `/0` still
contains, and never exits — so it does not return the block's
addresses with the first and last excluded. -/
theorem parseCIDR_slash_zero_diverges :
    2 < 2 ^ (32 - 0) ∧
    parseCIDR 0 0 = none ∧
    parseCIDR 0 0
      ≠ some ((List.range (2 ^ (32 - 0) - 2)).map
          (fun j => 0 + 1 + j)) := by
  have hz : parseCIDR 0 0 = none := by
    unfold parseCIDR
    rw [cidrLoop_zero_prefix_none 4294967297 0 (by norm_num)]
    rfl
  refine ⟨by norm_num, hz, ?_⟩
  rw [hz]
  exact fun hc => Option.noConfusion hc

/-- C6 (amended): for every valid CIDR block of prefix length 1..32
with more than 2 addresses, expansion terminates and returns exactly
the block's addresses with the first (network) and last (broadcast)
address excluded; for every such block of at most 2 addresses, all of
its addresses are returned with no exclusion.  (The `/0` block is the
one valid CIDR excluded: there the enumeration loop never returns, see
the counterexample.) -/
theorem parseCIDR_excludes_network_broadcast (n q : Nat) (hn1 : 1 ≤ n)
    (hn2 : n ≤ 32) (hq : q < 2 ^ n) :
    (2 < 2 ^ (32 - n) →
      parseCIDR (q * 2 ^ (32 - n)) n
        = some ((List.range (2 ^ (32 - n) - 2)).map
            (fun j => q * 2 ^ (32 - n) + 1 + j))) ∧
    (2 ^ (32 - n) ≤ 2 →
      parseCIDR (q * 2 ^ (32 - n)) n
        = some ((List.range (2 ^ (32 - n))).map
            (fun j => q * 2 ^ (32 - n) + j))) := by
  have hszle : 2 ^ (32 - n) ≤ 2 ^ 31 :=
    Nat.pow_le_pow_right (by norm_num) (by omega)
  have hfuel : 2 ^ (32 - n) < 4294967297 := by omega
  have hloop : cidrLoop 4294967297 (q * 2 ^ (32 - n))
      (q * 2 ^ (32 - n)) n
        = some ((List.range (2 ^ (32 - n))).map
            (fun j => q * 2 ^ (32 - n) + j)) := by
    have := cidrLoop_enum n q hn1 hn2 hq (2 ^ (32 - n)) 0 4294967297
      (by omega) hfuel
    simpa using this
  unfold parseCIDR
  rw [hloop]
  constructor
  · intro hbig
    refine congrArg some ?_
    unfold trimHosts
    rw [List.length_map, List.length_range, if_pos hbig]
    obtain ⟨m, hm⟩ : ∃ m, 2 ^ (32 - n) = m + 2 := ⟨2 ^ (32 - n) - 2, by omega⟩
    rw [hm, List.range_succ_eq_map, List.map_cons, List.drop_succ_cons,
      List.drop_zero, List.map_map, List.range_succ, List.map_append,
      List.map_cons, List.map_nil, List.dropLast_concat]
    have hm2 : m + 2 - 2 = m := by omega
    rw [hm2]
    refine List.map_congr_left ?_
    intro j _
    simp only [Function.comp_apply]
    omega
  · intro hsmall
    refine congrArg some ?_
    unfold trimHosts
    rw [List.length_map, List.length_range, if_neg (by omega)]

/-- Witness for C6: the block `4.0.0.4/30` (n = 30, q = 1, base 4, size
4 > 2) — instantiating the theorem at a concrete prefix. -/
theorem parseCIDR_excludes_network_broadcast_witness :
    (1 ≤ 30 ∧ 30 ≤ 32 ∧ 1 < 2 ^ 30) ∧
    ((2 < 2 ^ (32 - 30) →
      parseCIDR (1 * 2 ^ (32 - 30)) 30
        = some ((List.range (2 ^ (32 - 30) - 2)).map
            (fun j => 1 * 2 ^ (32 - 30) + 1 + j))) ∧
    (2 ^ (32 - 30) ≤ 2 →
      parseCIDR (1 * 2 ^ (32 - 30)) 30
        = some ((List.range (2 ^ (32 - 30))).map
            (fun j => 1 * 2 ^ (32 - 30) + j)))) :=
  ⟨⟨by decide, by decide, by decide⟩,
    parseCIDR_excludes_network_broadcast 30 1 (by decide) (by decide)
      (by decide)⟩

/-! ## Shutdown interleaving of `Scanner.Scan` (non-verbose path).

`Scan` runs `generateTasks`, then `s.pool.Close()`, then
`close(s.resultChan)`, then `s.collector.Close()`.  `Pool.Close` in
`worker.go` only executes `close(p.taskChan)` — despite its comment
saying it "waits for all workers to finish", there is no wait — and in
non-verbose mode nothing else blocks between the two closes.  A worker
goroutine loops: pull a task, probe it, send the outcome on the result
channel; in Go, a send on a closed channel panics.  The labelled
transition system below has one worker and merges the scanner's result
channel with the collector's queue (the bug needs only one hand-off
point). -/

/-- The worker goroutine's position in its loop. -/
inductive WorkerPhase where
  | idle
  | probing (t : ScanTask)
  | exited
deriving DecidableEq

/-- The `Scan` control flow's position. -/
inductive MainPhase where
  | submitting (pending : List ScanTask)
  | poolClosed
  | chanClosed
deriving DecidableEq

/-- One configuration of the scan shutdown: the task channel buffer and
closed flag, the worker, the result channel buffer and closed flag, the
collector's stored results, and whether a goroutine has panicked. -/
structure ShutdownState where
  taskBuf : List ScanTask
  taskClosed : Bool
  worker : WorkerPhase
  resultClosed : Bool
  resultBuf : List ScanResult
  collected : List ScanResult
  panicked : Bool
  main : MainPhase
deriving DecidableEq

/-- The outcome the worker commits to reporting for a pulled task (one
fixed dial result; which one is irrelevant to the shutdown behaviour). -/
def probeOutcome (t : ScanTask) : ScanResult :=
  Worker.scan t (.dialFailed true "i/o timeout")

/-- The interleaved small steps of `Scanner.Scan`, the one worker, and
the collector.  `poolClose` is exactly `Pool.Close`: it marks the task
channel closed and nothing more, after which `resultClose` (the
`close(s.resultChan)` in `Scan`) is immediately enabled.
`workerSendToClosed` is Go's panic on sending to a closed channel: the
worker dies and its outcome is never delivered. -/
inductive ShutdownStep : ShutdownState → ShutdownState → Prop where
  | submit (s : ShutdownState) (t : ScanTask) (rest : List ScanTask) :
      s.main = .submitting (t :: rest) → s.taskClosed = false →
      ShutdownStep s
        { s with taskBuf := s.taskBuf ++ [t], main := .submitting rest }
  | poolClose (s : ShutdownState) : s.main = .submitting [] →
      ShutdownStep s { s with taskClosed := true, main := .poolClosed }
  | resultClose (s : ShutdownState) : s.main = .poolClosed →
      ShutdownStep s { s with resultClosed := true, main := .chanClosed }
  | workerTake (s : ShutdownState) (t : ScanTask) (rest : List ScanTask) :
      s.worker = .idle → s.taskBuf = t :: rest →
      ShutdownStep s { s with worker := .probing t, taskBuf := rest }
  | workerExit (s : ShutdownState) :
      s.worker = .idle → s.taskBuf = [] → s.taskClosed = true →
      ShutdownStep s { s with worker := .exited }
  | workerSend (s : ShutdownState) (t : ScanTask) :
      s.worker = .probing t → s.resultClosed = false →
      ShutdownStep s
        { s with worker := .idle, resultBuf := s.resultBuf ++ [probeOutcome t] }
  | workerSendToClosed (s : ShutdownState) (t : ScanTask) :
      s.worker = .probing t → s.resultClosed = true →
      ShutdownStep s { s with worker := .exited, panicked := true }
  | collectOne (s : ShutdownState) (r : ScanResult)
      (rest : List ScanResult) :
      s.resultBuf = r :: rest →
      ShutdownStep s
        { s with resultBuf := rest, collected := s.collected ++ [r] }

/-- Reachability under the shutdown steps. -/
def ShutdownReach : ShutdownState → ShutdownState → Prop :=
  Relation.ReflTransGen ShutdownStep

/-- A one-task scan: 1 host × 1 port, one worker, non-verbose. -/
def demoTask : ScanTask := ⟨"127.0.0.1", 80⟩

/-- The initial configuration of `Scan` for the one-task session. -/
def shutdownInit : ShutdownState :=
  { taskBuf := [], taskClosed := false, worker := .idle,
    resultClosed := false, resultBuf := [], collected := [],
    panicked := false, main := .submitting [demoTask] }

/-- The configuration after the losing interleaving: the worker pulled
the task, `Scan` closed the pool and the result channel while the probe
was in flight, and the worker's send panicked. -/
def shutdownLost : ShutdownState :=
  { taskBuf := [], taskClosed := true, worker := .exited,
    resultClosed := true, resultBuf := [], collected := [],
    panicked := true, main := .chanClosed }

/-- C3 (refuting trace): `Scan` can reach a state where a worker that
committed to reporting an outcome — it pulled its task from the still
open task source — panics sending it, because `Pool.Close` returns
without waiting for workers and `Scan` then closes the outcome channel;
the outcome never reaches the collector, whose stored results stay
empty. -/
theorem scan_shutdown_loses_outcome :
    ShutdownReach shutdownInit shutdownLost ∧
    shutdownLost.panicked = true ∧
    shutdownLost.collected = [] := by
  refine ⟨?_, rfl, rfl⟩
  exact .head (.submit _ demoTask [] rfl rfl)
    (.head (.workerTake _ demoTask [] rfl rfl)
      (.head (.poolClose _ rfl)
        (.head (.resultClose _ rfl)
          (.head (.workerSendToClosed _ demoTask rfl rfl) .refl))))

end Netscout
